import Mathlib

/-!
Verification of the WaveBank index engine (obsplus `bank/wavebank.py`).

The definitions below are a shallow embedding of the index-engine parts of
`WaveBank`: the index rows, the wildcard query engine (`get_regex` /
`filter_index`), the index read path (`read_index`), the bulk resolver
(`get_waveforms_bulk` restricted to its row-selection for a single request),
the write-update normalization (`_write_update`), gap/uptime statistics
(`_get_gap_dfs`, `get_gaps_df`, `get_uptime_df`), the waveform write path
(`put_waveforms`) and the stream polishing step (`_polish_stream`).

Timestamps are embedded as `Rat` (the source uses float epoch seconds; the
claims under study involve no float-rounding behavior).  Fallible operations
return `Except`.  External collaborators (the obspy trace parser, trim, merge
and sort of traces, path templating) are passed in as function parameters, as
the spec declares them out of scope.
-/

/-- Exact rational subtraction, defined through `mkRat` so that concrete
instances evaluate inside `decide` (the Batteries `Rat.sub` is marked
irreducible); `ratSub_eq` below proves it equal to `Sub.sub`. -/
def ratSub (a b : Rat) : Rat := mkRat (a.num * b.den - b.num * a.den) (a.den * b.den)

/-- Exact rational addition through `mkRat`; equals `Add.add` by `ratAdd_eq`. -/
def ratAdd (a b : Rat) : Rat := mkRat (a.num * b.den + b.num * a.den) (a.den * b.den)

/-- Exact rational division through `Rat.divInt`; equals `Div.div` by
`ratDiv_eq`. -/
def ratDiv (a b : Rat) : Rat := Rat.divInt (a.num * b.den) (b.num * a.den)

theorem ratSub_eq (a b : Rat) : ratSub a b = a - b := by
  unfold ratSub
  rw [Rat.mkRat_eq_div]
  have ha : ((a.den : Rat)) ≠ 0 := by exact_mod_cast a.den_nz
  have hb : ((b.den : Rat)) ≠ 0 := by exact_mod_cast b.den_nz
  push_cast
  conv_rhs => rw [← Rat.num_div_den a, ← Rat.num_div_den b]
  rw [div_sub_div _ _ ha hb]
  ring_nf

theorem ratAdd_eq (a b : Rat) : ratAdd a b = a + b := by
  unfold ratAdd
  rw [Rat.mkRat_eq_div]
  have ha : ((a.den : Rat)) ≠ 0 := by exact_mod_cast a.den_nz
  have hb : ((b.den : Rat)) ≠ 0 := by exact_mod_cast b.den_nz
  push_cast
  conv_rhs => rw [← Rat.num_div_den a, ← Rat.num_div_den b]
  rw [div_add_div _ _ ha hb]
  ring_nf

theorem ratDiv_eq (a b : Rat) : ratDiv a b = a / b := by
  unfold ratDiv
  rw [Rat.divInt_eq_div]
  by_cases hb0 : b = 0
  · subst hb0; simp
  have ha : ((a.den : Rat)) ≠ 0 := by exact_mod_cast a.den_nz
  have hb : ((b.den : Rat)) ≠ 0 := by exact_mod_cast b.den_nz
  have hbn : ((b.num : Rat)) ≠ 0 := by exact_mod_cast Rat.num_ne_zero.mpr hb0
  push_cast
  conv_rhs => rw [← Rat.num_div_den a, ← Rat.num_div_den b]
  field_simp
  left
  ring

/-- One row of the waveform index: one contiguous channel segment per file.
Mirrors `WaveBank.index_columns` (`network station location channel
starttime endtime path`). -/
structure IndexRow where
  network : String
  station : String
  location : String
  channel : String
  starttime : Rat
  endtime : Rat
  path : String
deriving DecidableEq

/- ----------------------------------------------------------------
   Wildcard matching: `get_regex` is `fnmatch.translate` (POSIX shell
   wildcards compiled to a regex ending in `\Z`) and `filter_index`
   applies it with `Series.str.match`, i.e. anchored at the start; the
   trailing `\Z` makes the combination a full-string match.  We embed
   that composition directly as a glob matcher: a pattern is compiled to
   tokens (star, single-char wildcard, literal char, bracket class) and
   matched against the whole string.
   ---------------------------------------------------------------- -/

/-- A compiled wildcard-pattern token. -/
inductive GlobTok where
  | star
  | anyChar
  | lit (c : Char)
  | cls (neg : Bool) (content : List Char)
deriving DecidableEq

/-- Split a character list at the first closing bracket; `none` when there is
no closing bracket (in which case `fnmatch` treats the opening bracket as a
literal). -/
def breakClose : List Char → Option (List Char × List Char)
  | [] => Option.none
  | c :: rest =>
    if c = ']' then some ([], rest)
    else (breakClose rest).map (fun p => (c :: p.1, p.2))

/-- Parse the body of a bracket class, mirroring `fnmatch.translate`: a
leading `!` negates; a `]` directly after the (possible) `!` is literal
content; the class runs to the next `]`. Returns (negated, content, rest). -/
def splitClass (l : List Char) : Option (Bool × List Char × List Char) :=
  let p := match l with
    | '!' :: rest => (true, rest)
    | _ => (false, l)
  match p.2 with
  | ']' :: rest =>
    match breakClose rest with
    | some q => some (p.1, ']' :: q.1, q.2)
    | Option.none => Option.none
  | _ =>
    match breakClose p.2 with
    | some q => some (p.1, q.1, q.2)
    | Option.none => Option.none

/-- Compile a wildcard pattern to tokens.  Fuel-based recursion (the bracket
case recurses on a strict suffix); `fuel` at least the pattern length is
always sufficient. -/
def compileGlobAux : Nat → List Char → List GlobTok
  | 0, _ => []
  | _, [] => []
  | fuel + 1, c :: ps =>
    if c = '*' then GlobTok.star :: compileGlobAux fuel ps
    else if c = '?' then GlobTok.anyChar :: compileGlobAux fuel ps
    else if c = '[' then
      match splitClass ps with
      | some q => GlobTok.cls q.1 q.2.1 :: compileGlobAux fuel q.2.2
      | Option.none => GlobTok.lit '[' :: compileGlobAux fuel ps
    else GlobTok.lit c :: compileGlobAux fuel ps

/-- Compile a wildcard pattern (list-of-chars form). -/
def compileGlob (p : List Char) : List GlobTok :=
  compileGlobAux (p.length + 1) p

/-- Membership of a character in a bracket-class body, with `a-b` ranges. -/
def charInClassContent : Char → List Char → Bool
  | _, [] => false
  | c, a :: '-' :: b :: rest =>
    (decide (a ≤ c) && decide (c ≤ b)) || charInClassContent c rest
  | c, a :: rest => decide (c = a) || charInClassContent c rest

/-- Match compiled tokens against a whole string (the regex from
`fnmatch.translate` ends in `\Z`, so nothing may remain unmatched).
Fuel-based: every step shortens tokens or input, so fuel
`toks.length + s.length + 1` always suffices. -/
def globMatchAux : Nat → List GlobTok → List Char → Bool
  | 0, _, _ => false
  | fuel + 1, toks, s =>
    match toks, s with
    | [], [] => true
    | [], _ :: _ => false
    | GlobTok.star :: ps, s =>
      globMatchAux fuel ps s ||
        (match s with
         | [] => false
         | _ :: cs => globMatchAux fuel (GlobTok.star :: ps) cs)
    | GlobTok.anyChar :: ps, s =>
      match s with
      | [] => false
      | _ :: cs => globMatchAux fuel ps cs
    | GlobTok.lit c :: ps, s =>
      match s with
      | [] => false
      | c2 :: cs => decide (c = c2) && globMatchAux fuel ps cs
    | GlobTok.cls neg content :: ps, s =>
      match s with
      | [] => false
      | c :: cs => (charInClassContent c content != neg) && globMatchAux fuel ps cs

/-- Match compiled tokens against a character list. -/
def globMatch (toks : List GlobTok) (s : List Char) : Bool :=
  globMatchAux (toks.length + s.length + 1) toks s

/-- `get_regex` composed with `Series.str.match`: full-string POSIX
shell-style wildcard match of a value against a pattern. -/
def fnmatch (pat v : String) : Bool :=
  globMatch (compileGlob pat.data) v.data

example : fnmatch "A*" "ABC" = true := by decide
example : fnmatch "A*" "A1" = true := by decide
example : fnmatch "A*" "BXY" = false := by decide
example : fnmatch "A?" "A1" = true := by decide
example : fnmatch "A?" "ABC" = false := by decide
example : fnmatch "A[12]C" "A1C" = true := by decide
example : fnmatch "A[!12]C" "A1C" = false := by decide
example : fnmatch "" "" = true := by decide
example : fnmatch "--" "" = false := by decide

/- ----------------------------------------------------------------
   Query engine: `filter_index`
   ---------------------------------------------------------------- -/

/-- A value of one of the four code query parameters of `filter_index`:
absent (`None`), a wildcard string, or a sequence of exact codes. -/
inductive StrFilter where
  | noFilter
  | pat (p : String)
  | seq (l : List String)
deriving DecidableEq

/-- Whether one string field of a row passes one filter: absent imposes no
constraint, a string is a wildcard pattern (`get_regex` + `str.match`), a
sequence is exact membership (`Series.isin`). -/
def rowPasses : StrFilter → String → Bool
  | StrFilter.noFilter, _ => true
  | StrFilter.pat p, v => fnmatch p v
  | StrFilter.seq l, v => l.contains v

/-- The time clause of `filter_index`: a row passes when
`NOT (endtime < start OR starttime > end)`; an absent bound is
`-inf` / `+inf`, which makes its conjunct vacuous. -/
def timePass (start? end? : Option Rat) (r : IndexRow) : Bool :=
  (match start? with
   | Option.none => true
   | some t1 => !decide (r.endtime < t1)) &&
  (match end? with
   | Option.none => true
   | some t2 => !decide (r.starttime > t2))

/-- `filter_index`: the boolean row mask over the index.  All active
constraints are combined with logical AND. -/
def filter_index (index : List IndexRow) (net sta loc chan : StrFilter)
    (start? end? : Option Rat) : List Bool :=
  index.map (fun r =>
    rowPasses net r.network && rowPasses sta r.station &&
    rowPasses loc r.location && rowPasses chan r.channel &&
    timePass start? end? r)

/-- Apply a boolean mask to a row list (`index[filt]`). -/
def maskSelect {α : Type} : List α → List Bool → List α
  | [], _ => []
  | _ :: _, [] => []
  | r :: rs, b :: bs => if b then r :: maskSelect rs bs else maskSelect rs bs

/- ----------------------------------------------------------------
   Index store, write-update normalization, cache and `read_index`
   ---------------------------------------------------------------- -/

/-- `WaveBank.buffer`: the padding added before and after the requested
times when reading the index through the cache. -/
def buffer : Rat := mkRat 10111 1000

/-- The string normalization `_write_update` applies to each string column
before appending: `str.replace("b", "")` then `str.replace("'", "")`, which
deletes every lowercase letter b and then every single-quote character
(code 39) from the value. -/
def writeNormalize (s : String) : String :=
  String.mk ((s.data.filter (fun ch => !decide (ch = 'b'))).filter
    (fun ch => !decide (ch = Char.ofNat 39)))

/-- `_write_update` applied to one summary row: the four string columns are
normalized; the float columns are kept as numbers. -/
def writeNormalizeRow (r : IndexRow) : IndexRow :=
  { r with
    network := writeNormalize r.network
    station := writeNormalize r.station
    location := writeNormalize r.location
    channel := writeNormalize r.channel }

/-- A waveform file on disk, as the directory scanner sees it. -/
structure WaveFile where
  path : String
  mtime : Rat
deriving DecidableEq

/-- The on-disk index store file: the appended rows plus the last-updated
timestamp record (the metadata templates play no role in the claims). -/
structure StoreFile where
  rows : List IndexRow
  lastUpdated : Rat
deriving DecidableEq

/-- The observable state of one bank's base directory: the waveform files
and the index store file (absent until first built). -/
structure BankState where
  files : List WaveFile
  store : Option StoreFile
deriving DecidableEq

/-- Modelled from the spec: `_Bank._unindexed_file_iterator` is not under
src/.  Spec 4.3: the scanner compares each file's modification time against
the last recorded update timestamp and yields every file newer than it; with
no prior index it yields every file (initial full scan). -/
def unindexedFiles (b : BankState) : List WaveFile :=
  match b.store with
  | Option.none => b.files
  | some st => b.files.filter (fun f => decide (f.mtime > st.lastUpdated))

/-- `update_index`: summarize every unindexed file; when at least one file
was visited, append the (normalized) summary rows to the store and set the
last-updated record to the current time.  With zero unindexed files nothing
is written (so an empty bank never creates a store file). -/
def update_index (summarize : String → List IndexRow) (now : Rat)
    (b : BankState) : BankState :=
  let updates := (unindexedFiles b).map (fun f => summarize f.path)
  if updates.isEmpty then b
  else
    let newRows := (updates.foldr (· ++ ·) []).map writeNormalizeRow
    match b.store with
    | Option.none => { b with store := some ⟨newRows, now⟩ }
    | some st => { b with store := some ⟨st.rows ++ newRows, now⟩ }

deriving instance DecidableEq for Except

/-- The errors `read_index` can surface: a malformed query
(starttime greater than endtime). -/
inductive BankError where
  | validation
deriving DecidableEq

/-- The `starttime > endtime` validation check of `read_index`, performed
only when both bounds are supplied. -/
def validationFails (start? end? : Option Rat) : Bool :=
  match start?, end? with
  | some t1, some t2 => decide (t1 > t2)
  | _, _ => false

/-- Modelled from the spec: `_IndexCache.__call__` (obsplus.bank.utils) is
not under src/.  Spec 4.2: on a miss the cache reads the store over the
padded range `[start - buffer, end + buffer]` (unbounded when a bound is
absent), i.e. the rows overlapping the padded range; caching itself never
changes the rows returned, so the model returns the padded store read. -/
def cacheGet (rows : List IndexRow) (start? end? : Option Rat) : List IndexRow :=
  rows.filter (fun r =>
    (match start? with
     | Option.none => true
     | some t => !decide (r.endtime < ratSub t buffer)) &&
    (match end? with
     | Option.none => true
     | some t => !decide (r.starttime > ratAdd t buffer)))

/-- `read_index`: validate the time bounds, build the index on demand when
the store file is absent (returning an empty table when it still is), then
read the padded range through the cache and apply `filter_index` with the
four code filters (and no time bounds). -/
def read_index (summarize : String → List IndexRow) (now : Rat)
    (b : BankState) (net sta loc chan : StrFilter)
    (start? end? : Option Rat) : Except BankError (List IndexRow) :=
  if validationFails start? end? then Except.error BankError.validation
  else
    let b1 := match b.store with
      | Option.none => update_index summarize now b
      | some _ => b
    match b1.store with
    | Option.none => Except.ok []
    | some st =>
      let index := cacheGet st.rows start? end?
      Except.ok (maskSelect index
        (filter_index index net sta loc chan Option.none Option.none))

example :
    read_index (fun _ => []) 0 ⟨[], Option.none⟩ StrFilter.noFilter
      StrFilter.noFilter StrFilter.noFilter StrFilter.noFilter
      (some 3) (some 7) = Except.ok [] := by decide

example :
    read_index (fun _ => []) 0
      ⟨[], some ⟨[⟨"N", "S", "", "C", 0, 50, "p"⟩], 0⟩⟩ StrFilter.noFilter
      (StrFilter.pat "S*") StrFilter.noFilter StrFilter.noFilter
      (some 55) (some 60) = Except.ok [⟨"N", "S", "", "C", 0, 50, "p"⟩] := by
  decide

/- ----------------------------------------------------------------
   Bulk resolver: `get_waveforms_bulk` for a one-element request list
   ---------------------------------------------------------------- -/

/-- One bulk request tuple `(network, station, location, channel, t1, t2)`.
The four code fields are object-valued in the source dataframe, so a field
may also hold `None`. -/
structure BulkRequest where
  network : Option String
  station : Option String
  location : Option String
  channel : Option String
  t1 : Rat
  t2 : Rat
deriving DecidableEq

/-- A raw bulk field as a `filter_index` argument: `None` imposes no
constraint, a string is a wildcard pattern. -/
def optFilter : Option String → StrFilter
  | Option.none => StrFilter.noFilter
  | some s => StrFilter.pat s

/-- Membership in `match_chars = {"*", "?", "[", "]"}`. -/
def isMatchChar (c : Char) : Bool :=
  decide (c = '*') || decide (c = '?') || decide (c = '[') || decide (c = ']')

/-- Whether a code string contains a wildcard special character
(`_column_contains` on one string value). -/
def hasWildcard (s : String) : Bool :=
  s.data.any isMatchChar

/-- `_column_contains` on one bulk field.  On a `None` entry
`Series.str.contains` yields a missing value, and `numpy`'s `any` over the
stacked column results treats that missing value as true, so a request with
a `None` field is routed to the wildcard-matching branch. -/
def fieldUsesMatch : Option String → Bool
  | Option.none => true
  | some s => hasWildcard s

/-- The code normalization of `_get_nslc`: the exact values `None` and
`"--"` are replaced by the empty string (here on a string value). -/
def normalizeCode (s : String) : String :=
  if s = "--" then "" else s

/-- `_get_nslc` normalization on an object field that may be `None`. -/
def normalizeOptCode : Option String → String
  | Option.none => ""
  | some s => normalizeCode s

/-- `_get_nslc` of an index row: dotted concatenation of the normalized
codes. -/
def seedOfRow (r : IndexRow) : String :=
  normalizeCode r.network ++ "." ++ normalizeCode r.station ++ "." ++
    normalizeCode r.location ++ "." ++ normalizeCode r.channel

/-- `_get_nslc` of a bulk request row. -/
def seedOfRequest (q : BulkRequest) : String :=
  normalizeOptCode q.network ++ "." ++ normalizeOptCode q.station ++ "." ++
    normalizeOptCode q.location ++ "." ++ normalizeOptCode q.channel

/-- The row selection performed by `get_waveforms_bulk` for a one-element
request list (so `t1 = min t1 = t1`, `t2 = max t2`, the unique time group is
`(t1, t2)` and the group dataframe is the whole request dataframe): read the
index over `[t1, t2]` with no code filters, then apply either the
wildcard-matching branch (`filter_index` on the four raw fields) when any
field uses match characters, or the exact branch (normalized seed-identifier
membership, here membership in the one-element set) otherwise. -/
def bulk_select_single (summarize : String → List IndexRow) (now : Rat)
    (b : BankState) (q : BulkRequest) : Except BankError (List IndexRow) :=
  match read_index summarize now b StrFilter.noFilter StrFilter.noFilter
      StrFilter.noFilter StrFilter.noFilter (some q.t1) (some q.t2) with
  | Except.error e => Except.error e
  | Except.ok ind =>
    let usesMatch := fieldUsesMatch q.network || fieldUsesMatch q.station ||
      fieldUsesMatch q.location || fieldUsesMatch q.channel
    if usesMatch then
      Except.ok (maskSelect ind (filter_index ind (optFilter q.network)
        (optFilter q.station) (optFilter q.location) (optFilter q.channel)
        Option.none Option.none))
    else
      Except.ok (ind.filter (fun r => decide (seedOfRow r = seedOfRequest q)))

example :
    bulk_select_single (fun _ => []) 0
      ⟨[], some ⟨[⟨"N", "S", "", "C", 0, 50, "p"⟩], 0⟩⟩
      ⟨some "N", some "S", some "--", some "C", 0, 100⟩ =
    Except.ok [⟨"N", "S", "", "C", 0, 50, "p"⟩] := by decide

example :
    read_index (fun _ => []) 0
      ⟨[], some ⟨[⟨"N", "S", "", "C", 0, 50, "p"⟩], 0⟩⟩
      (StrFilter.pat "N") (StrFilter.pat "S") (StrFilter.pat "--")
      (StrFilter.pat "C") (some 0) (some 100) = Except.ok [] := by decide

/- ----------------------------------------------------------------
   Gap analysis and uptime statistics
   ---------------------------------------------------------------- -/

/-- Minimum of two rationals through the decidable order (so concrete
instances evaluate). -/
def ratMin (a b : Rat) : Rat := if decide (a ≤ b) then a else b

/-- Maximum of two rationals. -/
def ratMax (a b : Rat) : Rat := if decide (a ≤ b) then b else a

/-- The `(network, station, location, channel)` group key of a row. -/
def nslcKey (r : IndexRow) : String × String × String × String :=
  (r.network, r.station, r.location, r.channel)

/-- Lexicographic order on group keys (`groupby` sorts its keys). -/
def keyLe (a b : String × String × String × String) : Bool :=
  decide (a.1 < b.1) || (decide (a.1 = b.1) &&
    (decide (a.2.1 < b.2.1) || (decide (a.2.1 = b.2.1) &&
      (decide (a.2.2.1 < b.2.2.1) || (decide (a.2.2.1 = b.2.2.1) &&
        !decide (b.2.2.2 < a.2.2.2))))))

/-- Insertion into a key list sorted by `keyLe`. -/
def insertKey (k : String × String × String × String) :
    List (String × String × String × String) →
    List (String × String × String × String)
  | [] => [k]
  | x :: xs => if keyLe k x then k :: x :: xs else x :: insertKey k xs

/-- The distinct group keys of an index, in sorted order (as `groupby`
produces them). -/
def sortedKeys (rows : List IndexRow) : List (String × String × String × String) :=
  (rows.foldl
    (fun acc r => if acc.contains (nslcKey r) then acc else nslcKey r :: acc)
    []).foldr insertKey []

/-- Sort key of `sort_values(["starttime", "endtime"])`. -/
def timeKeyLe (a b : IndexRow) : Bool :=
  decide (a.starttime < b.starttime) ||
    (decide (a.starttime = b.starttime) && decide (a.endtime ≤ b.endtime))

/-- Insertion into a row list sorted by `timeKeyLe`. -/
def insertByTime (r : IndexRow) : List IndexRow → List IndexRow
  | [] => [r]
  | x :: xs => if timeKeyLe r x then r :: x :: xs else x :: insertByTime r xs

/-- `sort_values(["starttime", "endtime"])` on one group. -/
def sortByTime (l : List IndexRow) : List IndexRow :=
  l.foldr insertByTime []

/-- One row of the gaps dataframe (`gap_columns`). -/
structure GapRow where
  network : String
  station : String
  location : String
  channel : String
  starttime : Rat
  endtime : Rat
  gap_duration : Rat
deriving DecidableEq

/-- `_get_gap_dfs` on one seed-id group: sort by (starttime, endtime), keep
each row whose `endtime + min_gap` is less than the next row's starttime,
and report the gap from that endtime to the next starttime (the last row has
no successor and is never a gap row). -/
def _get_gap_dfs (min_gap : Rat) (rows : List IndexRow) : List GapRow :=
  let dd := sortByTime rows
  (dd.zip dd.tail).filterMap (fun p =>
    if decide (ratAdd p.1.endtime min_gap < p.2.starttime) then
      some ⟨p.1.network, p.1.station, p.1.location, p.1.channel,
        p.1.endtime, p.2.starttime, ratSub p.2.starttime p.1.endtime⟩
    else Option.none)

/-- `get_gaps_df`: read the index with the given query, group by seed id and
concatenate the per-group gap rows. -/
def get_gaps_df (summarize : String → List IndexRow) (now : Rat)
    (b : BankState) (net sta loc chan : StrFilter) (start? end? : Option Rat)
    (min_gap : Rat) : Except BankError (List GapRow) :=
  match read_index summarize now b net sta loc chan start? end? with
  | Except.error e => Except.error e
  | Except.ok idx =>
    Except.ok ((sortedKeys idx).foldr
      (fun k acc =>
        _get_gap_dfs min_gap (idx.filter (fun r => decide (nslcKey r = k))) ++ acc)
      [])

/-- One row of the availability dataframe: per seed id, the minimum
starttime and maximum endtime. -/
structure AvailRow where
  network : String
  station : String
  location : String
  channel : String
  starttime : Rat
  endtime : Rat
deriving DecidableEq

/-- Minimum starttime over a (nonempty) group. -/
def groupMinStart : List IndexRow → Rat
  | [] => 0
  | r :: rs => rs.foldl (fun a x => ratMin a x.starttime) r.starttime

/-- Maximum endtime over a (nonempty) group. -/
def groupMaxEnd : List IndexRow → Rat
  | [] => 0
  | r :: rs => rs.foldl (fun a x => ratMax a x.endtime) r.endtime

/-- `get_availability_df`: per seed id, `groupby.starttime.min()` merged
with `groupby.endtime.max()`. -/
def get_availability_df (summarize : String → List IndexRow) (now : Rat)
    (b : BankState) (net sta loc chan : StrFilter) (start? end? : Option Rat) :
    Except BankError (List AvailRow) :=
  match read_index summarize now b net sta loc chan start? end? with
  | Except.error e => Except.error e
  | Except.ok idx =>
    Except.ok ((sortedKeys idx).map (fun k =>
      let grp := idx.filter (fun r => decide (nslcKey r = k))
      ⟨k.1, k.2.1, k.2.2.1, k.2.2.2, groupMinStart grp, groupMaxEnd grp⟩))

/-- One row of the uptime dataframe. -/
structure UptimeRow where
  network : String
  station : String
  location : String
  channel : String
  starttime : Rat
  endtime : Rat
  duration : Rat
  gap_duration : Rat
  uptime : Rat
  availability : Rat
deriving DecidableEq

/-- `get_uptime_df`: availability per seed id with
`duration = endtime - starttime`, total gap duration per seed id from
`get_gaps_df` (with its default `min_gap = 1`; zero when there are no gaps),
`uptime = duration - gap_duration` and
`availability = uptime / duration`. -/
def get_uptime_df (summarize : String → List IndexRow) (now : Rat)
    (b : BankState) (net sta loc chan : StrFilter) (start? end? : Option Rat) :
    Except BankError (List UptimeRow) :=
  match get_availability_df summarize now b net sta loc chan start? end? with
  | Except.error e => Except.error e
  | Except.ok avail =>
    match get_gaps_df summarize now b net sta loc chan start? end? 1 with
    | Except.error e => Except.error e
    | Except.ok gaps =>
      let key : AvailRow → String × String × String × String :=
        fun a => (a.network, a.station, a.location, a.channel)
      let gapTotal : String × String × String × String → Option Rat :=
        fun k =>
          if gaps.isEmpty then some 0
          else
            let grp := gaps.filter (fun g =>
              decide ((g.network, g.station, g.location, g.channel) = k))
            if grp.isEmpty then Option.none
            else some (grp.foldl (fun acc g => ratAdd acc g.gap_duration) 0)
      Except.ok (avail.filterMap (fun a =>
        (gapTotal (key a)).map (fun g =>
          let dur := ratSub a.endtime a.starttime
          ⟨a.network, a.station, a.location, a.channel, a.starttime, a.endtime,
            dur, g, ratSub dur g, ratDiv (ratSub dur g) dur⟩)))

example :
    get_gaps_df (fun _ => []) 0
      ⟨[], some ⟨[⟨"X", "Y", "", "Z", 0, 100, "p1"⟩,
        ⟨"X", "Y", "", "Z", 100, 200, "p2"⟩,
        ⟨"X", "Y", "", "Z", 300, 400, "p3"⟩], 0⟩⟩
      StrFilter.noFilter StrFilter.noFilter StrFilter.noFilter
      StrFilter.noFilter Option.none Option.none 1 =
    Except.ok [⟨"X", "Y", "", "Z", 200, 300, 100⟩] := by decide

example :
    get_uptime_df (fun _ => []) 0
      ⟨[], some ⟨[⟨"X", "Y", "", "Z", 0, 100, "p1"⟩,
        ⟨"X", "Y", "", "Z", 100, 200, "p2"⟩,
        ⟨"X", "Y", "", "Z", 300, 400, "p3"⟩], 0⟩⟩
      StrFilter.noFilter StrFilter.noFilter StrFilter.noFilter
      StrFilter.noFilter Option.none Option.none =
    Except.ok [⟨"X", "Y", "", "Z", 0, 400, 400, 100, 300, mkRat 3 4⟩] := by
  decide

/- ----------------------------------------------------------------
   Write path: `put_waveforms`
   ---------------------------------------------------------------- -/

/-- A channel time series (trace): its seed codes and its time span (sample
values play no role in the claims under study). -/
structure Trace where
  network : String
  station : String
  location : String
  channel : String
  starttime : Rat
  endtime : Rat
deriving DecidableEq

/-- The waveform files on disk, as content at a destination path. -/
def FileSys : Type := List (String × List Trace)

/-- Content at a path. -/
def fsGet : List (String × List Trace) → String → Option (List Trace)
  | [], _ => Option.none
  | (q, ts) :: rest, p => if q = p then some ts else fsGet rest p

/-- Write content at a path (replace or add the entry). -/
def fsSet : List (String × List Trace) → String → List Trace →
    List (String × List Trace)
  | [], p, ts => [(p, ts)]
  | (q, old) :: rest, p, ts =>
    if q = p then (q, ts) :: rest else (q, old) :: fsSet rest p ts

/-- Add a trace to its path group, preserving first-appearance group order
and in-group trace order (`defaultdict(list)` + `append`). -/
def addToGroup (p : String) (tr : Trace) :
    List (String × List Trace) → List (String × List Trace)
  | [] => [(p, [tr])]
  | (q, ts) :: rest =>
    if q = p then (q, ts ++ [tr]) :: rest else (q, ts) :: addToGroup p tr rest

/-- Group the input stream's traces by their computed destination path
(`st_dic`). -/
def groupByPath (pathOf : Trace → String) (stream : List Trace) :
    List (String × List Trace) :=
  stream.foldl (fun acc tr => addToGroup (pathOf tr) tr acc) []

/-- `put_waveforms`: route each trace to its destination path (the path
computation from `summarize_trace` and the naming templates is the external
collaborator `pathOf`), group by destination, and for each destination write
the merge of the new traces together with any content already at that path
(the existing stream is read and added to the new one before merging, so the
written value is `mergeFn (new ++ existing)`).  `mergeFn` is the external
`Stream.merge(method=1)`.  The index update that follows does not change the
file contents. -/
def put_waveforms (pathOf : Trace → String) (mergeFn : List Trace → List Trace)
    (fs : List (String × List Trace)) (stream : List Trace) :
    List (String × List Trace) :=
  (groupByPath pathOf stream).foldl
    (fun acc pg =>
      let withExisting := match fsGet acc pg.1 with
        | some existing => pg.2 ++ existing
        | Option.none => pg.2
      fsSet acc pg.1 (mergeFn withExisting))
    fs

/- ----------------------------------------------------------------
   Retrieval assembly: `_polish_stream`
   ---------------------------------------------------------------- -/

/-- Python `a or b` on an optional float: the right operand is used when the
left is `None` and also when it is the falsy float `0.0`. -/
def pyOr (v? : Option Rat) (dflt : Rat) : Rat :=
  match v? with
  | Option.none => dflt
  | some v => if v = 0 then dflt else v

/-- `min([x.stats.starttime for x in st])` (only used on nonempty streams). -/
def minTraceStart : List Trace → Rat
  | [] => 0
  | t :: ts => ts.foldl (fun a x => ratMin a x.starttime) t.starttime

/-- `max([x.stats.endtime for x in st])` (only used on nonempty streams). -/
def maxTraceEnd : List Trace → Rat
  | [] => 0
  | t :: ts => ts.foldl (fun a x => ratMax a x.endtime) t.endtime

/-- `_polish_stream`: an empty stream is returned unchanged; otherwise the
trim bounds are `starttime or min(...)` and `endtime or max(...)` (Python
truthiness), then the stream is trimmed, merged and sorted.  Trim, merge and
sort are the external obspy collaborators. -/
def _polish_stream (trim : Rat → Rat → List Trace → List Trace)
    (mergeFn : List Trace → List Trace) (sortFn : List Trace → List Trace)
    (st : List Trace) (start? end? : Option Rat) : List Trace :=
  if st.isEmpty then st
  else
    sortFn (mergeFn (trim (pyOr start? (minTraceStart st))
      (pyOr end? (maxTraceEnd st)) st))

example :
    put_waveforms (fun _ => "f") (fun l => l)
      [("f", [⟨"N", "S", "", "C", 0, 10⟩])] [⟨"N", "S", "", "C", 10, 20⟩] =
    [("f", [⟨"N", "S", "", "C", 10, 20⟩, ⟨"N", "S", "", "C", 0, 10⟩])] := by
  decide

example :
    _polish_stream (fun a b _ => [⟨"N", "S", "", "C", a, b⟩]) (fun l => l)
      (fun l => l) [⟨"N", "S", "", "C", 5, 10⟩] (some 0) (some 0) =
    [⟨"N", "S", "", "C", 5, 10⟩] := by decide

/- ----------------------------------------------------------------
   General helper lemmas
   ---------------------------------------------------------------- -/

theorem maskSelect_map {α : Type} (l : List α) (p : α → Bool) :
    maskSelect l (l.map p) = l.filter p := by
  induction l with
  | nil => rfl
  | cons x xs ih => cases hp : p x <;> simp [maskSelect, List.filter_cons, hp, ih]

theorem read_index_isOk (summarize : String → List IndexRow) (now : Rat)
    (b : BankState) (net sta loc chan : StrFilter) (start? end? : Option Rat)
    (h : validationFails start? end? = false) :
    (read_index summarize now b net sta loc chan start? end?).isOk = true := by
  unfold read_index
  rw [if_neg (by simp [h])]
  cases hb : (match b.store with
      | Option.none => update_index summarize now b
      | some _ => b).store <;> simp only [hb] <;> rfl

/-- C4 helper: the validation failure is independent of the bank state, so
it takes place before any store access. -/
theorem read_index_validation_error (summarize : String → List IndexRow)
    (now : Rat) (b : BankState) (net sta loc chan : StrFilter) (t1 t2 : Rat)
    (h : t1 > t2) :
    read_index summarize now b net sta loc chan (some t1) (some t2) =
      Except.error BankError.validation := by
  unfold read_index
  rw [if_pos (by simp [validationFails, h])]

/- ----------------------------------------------------------------
   Claim C2
   ---------------------------------------------------------------- -/

/-- C2: the write path is claimed to remove only source-format artifacts
(byte-string markers and quote characters), leaving artifact-free codes
unchanged.  The code instead deletes every lowercase letter b: a station
code "abc" carries no artifact yet is stored as "ac" (an uppercase "BOB" is
left alone, since only lowercase "b" is replaced).  This evaluates the
write-path normalization at the failing input. -/
theorem C2_write_normalization_eval :
    writeNormalizeRow ⟨"NW", "abc", "", "CHZ", 0, 1, "p"⟩ =
      ⟨"NW", "ac", "", "CHZ", 0, 1, "p"⟩ ∧
    writeNormalize "abc" ≠ "abc" ∧
    writeNormalize "BOB" = "BOB" := by decide

/- ----------------------------------------------------------------
   Claim C4
   ---------------------------------------------------------------- -/

/-- C4: a query with both bounds present and starttime > endtime makes
`read_index` fail with the validation error, for every bank state (so
before and independent of any store access); with starttime ≤ endtime, or
with either bound absent, no such error is raised. -/
theorem C4_time_validation (summarize : String → List IndexRow) (now : Rat)
    (b : BankState) (net sta loc chan : StrFilter) (t1 t2 : Rat) :
    (t1 > t2 →
      read_index summarize now b net sta loc chan (some t1) (some t2) =
        Except.error BankError.validation) ∧
    (t1 ≤ t2 →
      (read_index summarize now b net sta loc chan (some t1) (some t2)).isOk
        = true) ∧
    (read_index summarize now b net sta loc chan Option.none (some t2)).isOk
      = true ∧
    (read_index summarize now b net sta loc chan (some t1) Option.none).isOk
      = true ∧
    (read_index summarize now b net sta loc chan Option.none Option.none).isOk
      = true := by
  refine ⟨fun h => read_index_validation_error _ _ _ _ _ _ _ _ _ h,
    fun h => read_index_isOk _ _ _ _ _ _ _ _ _ ?_,
    read_index_isOk _ _ _ _ _ _ _ _ _ rfl,
    read_index_isOk _ _ _ _ _ _ _ _ _ rfl,
    read_index_isOk _ _ _ _ _ _ _ _ _ rfl⟩
  simp [validationFails, not_lt.mpr h]

/-- Witness for C4 at concrete inputs: starttime 5 with endtime 3 is
rejected with the validation error while starttime 3 with endtime 5 is
served. -/
theorem C4_time_validation_witness :
    read_index (fun _ => []) 0 ⟨[], Option.none⟩ StrFilter.noFilter
      StrFilter.noFilter StrFilter.noFilter StrFilter.noFilter
      (some 5) (some 3) = Except.error BankError.validation ∧
    (read_index (fun _ => []) 0 ⟨[], Option.none⟩ StrFilter.noFilter
      StrFilter.noFilter StrFilter.noFilter StrFilter.noFilter
      (some 3) (some 5)).isOk = true :=
  ⟨(C4_time_validation (fun _ => []) 0 ⟨[], Option.none⟩ StrFilter.noFilter
      StrFilter.noFilter StrFilter.noFilter StrFilter.noFilter 5 3).1
      (by decide),
   (C4_time_validation (fun _ => []) 0 ⟨[], Option.none⟩ StrFilter.noFilter
      StrFilter.noFilter StrFilter.noFilter StrFilter.noFilter 3 5).2.1
      (by decide)⟩

/- ----------------------------------------------------------------
   Claim C5
   ---------------------------------------------------------------- -/

/-- C5: a valid query (no bound pair with start > end) against a base
directory with no index store and no waveform files returns the empty row
set and raises nothing: the on-demand `update_index` visits zero files, so
no store is created and the empty table is returned. -/
theorem C5_empty_bank_query (summarize : String → List IndexRow) (now : Rat)
    (net sta loc chan : StrFilter) (start? end? : Option Rat)
    (h : validationFails start? end? = false) :
    read_index summarize now ⟨[], Option.none⟩ net sta loc chan start? end? =
      Except.ok [] := by
  unfold read_index
  rw [if_neg (by simp [h])]
  simp [update_index, unindexedFiles]

/-- Witness for C5: a concrete valid query over the empty bank. -/
theorem C5_empty_bank_query_witness :
    read_index (fun _ => []) 0 ⟨[], Option.none⟩ (StrFilter.pat "N*")
      StrFilter.noFilter StrFilter.noFilter StrFilter.noFilter
      (some 3) (some 7) = Except.ok [] :=
  C5_empty_bank_query (fun _ => []) 0 (StrFilter.pat "N*") StrFilter.noFilter
    StrFilter.noFilter StrFilter.noFilter (some 3) (some 7) (by decide)

/- ----------------------------------------------------------------
   Claim C7
   ---------------------------------------------------------------- -/

/-- The three-segment single-channel archive of the gap scenario: channel
X.Y..Z covers [0, 100], [100, 200] and [300, 400]. -/
def gapScenarioBank : BankState :=
  ⟨[], some ⟨[⟨"X", "Y", "", "Z", 0, 100, "p1"⟩,
    ⟨"X", "Y", "", "Z", 100, 200, "p2"⟩,
    ⟨"X", "Y", "", "Z", 300, 400, "p3"⟩], 0⟩⟩

/-- C7: on the three-segment scenario, `get_gaps_df` with `min_gap = 1`
returns exactly one gap row (starttime 200, endtime 300, gap_duration 100),
and `get_uptime_df` reports duration 400, gap_duration 100 and availability
3/4 for the channel. -/
theorem C7_gap_scenario :
    get_gaps_df (fun _ => []) 0 gapScenarioBank StrFilter.noFilter
      StrFilter.noFilter StrFilter.noFilter StrFilter.noFilter
      Option.none Option.none 1 =
      Except.ok [⟨"X", "Y", "", "Z", 200, 300, 100⟩] ∧
    get_uptime_df (fun _ => []) 0 gapScenarioBank StrFilter.noFilter
      StrFilter.noFilter StrFilter.noFilter StrFilter.noFilter
      Option.none Option.none =
      Except.ok [⟨"X", "Y", "", "Z", 0, 400, 400, 100, 300, mkRat 3 4⟩] ∧
    mkRat 3 4 = ratDiv 3 4 := by decide

/- ----------------------------------------------------------------
   Claim C10
   ---------------------------------------------------------------- -/

/-- C10: in `_polish_stream` the trim bounds are computed with Python `or`,
whose truthiness test makes a supplied bound of 0.0 behave exactly like an
absent bound; in that case the stream is trimmed to the minimum and maximum
timestamps present in the data rather than to the requested bound 0. -/
theorem C10_zero_bound_is_absent (trim : Rat → Rat → List Trace → List Trace)
    (mergeFn sortFn : List Trace → List Trace) (st : List Trace)
    (start? end? : Option Rat) :
    _polish_stream trim mergeFn sortFn st (some 0) end? =
      _polish_stream trim mergeFn sortFn st Option.none end? ∧
    _polish_stream trim mergeFn sortFn st start? (some 0) =
      _polish_stream trim mergeFn sortFn st start? Option.none ∧
    (st.isEmpty = false →
      _polish_stream trim mergeFn sortFn st (some 0) (some 0) =
        sortFn (mergeFn (trim (minTraceStart st) (maxTraceEnd st) st))) := by
  refine ⟨?_, ?_, fun h => ?_⟩
  · simp [_polish_stream, pyOr]
  · simp [_polish_stream, pyOr]
  · simp [_polish_stream, pyOr, h]

/-- Witness for C10: with a one-trace stream spanning [5, 10] and a trim
collaborator that records its bounds, requesting bounds (0, 0) trims to
(5, 10), the data extent. -/
theorem C10_zero_bound_is_absent_witness :
    _polish_stream (fun a b _ => [⟨"N", "S", "", "C", a, b⟩]) (fun l => l)
      (fun l => l) [⟨"N", "S", "", "C", 5, 10⟩] (some 0) (some 0) =
      [⟨"N", "S", "", "C", 5, 10⟩] :=
  ((C10_zero_bound_is_absent (fun a b _ => [⟨"N", "S", "", "C", a, b⟩])
    (fun l => l) (fun l => l) [⟨"N", "S", "", "C", 5, 10⟩] Option.none
    Option.none).2.2 (by decide)).trans (by decide)

/- ----------------------------------------------------------------
   Claim C8
   ---------------------------------------------------------------- -/

/-- The row predicate that characterizes `read_index` with both bounds
supplied: overlap with the buffer-padded interval
`[starttime - buffer, endtime + buffer]`, conjoined with the four code
filters; no time test against the unpadded interval occurs. -/
def paddedWindowPass (net sta loc chan : StrFilter) (t1 t2 : Rat)
    (r : IndexRow) : Bool :=
  (!decide (r.endtime < ratSub t1 buffer) &&
    !decide (r.starttime > ratAdd t2 buffer)) &&
  (rowPasses net r.network && rowPasses sta r.station &&
    rowPasses loc r.location && rowPasses chan r.channel)

/-- C8: with numeric bounds `t1 ≤ t2`, `read_index` returns exactly the
store rows that pass the four code filters and overlap the padded interval
`[t1 - buffer, t2 + buffer]` (buffer = 10.111); in particular a row lying
entirely before `t1` but within the padding (endtime < t1 yet
endtime ≥ t1 - buffer, starttime ≤ t2 + buffer) is included in the
result. -/
theorem C8_padded_window (summarize : String → List IndexRow) (now : Rat)
    (files : List WaveFile) (rows : List IndexRow) (lu : Rat)
    (net sta loc chan : StrFilter) (t1 t2 : Rat) (h : t1 ≤ t2) :
    read_index summarize now ⟨files, some ⟨rows, lu⟩⟩ net sta loc chan
      (some t1) (some t2) =
      Except.ok (rows.filter (paddedWindowPass net sta loc chan t1 t2)) ∧
    ∀ r ∈ rows,
      rowPasses net r.network = true → rowPasses sta r.station = true →
      rowPasses loc r.location = true → rowPasses chan r.channel = true →
      r.endtime < t1 → ratSub t1 buffer ≤ r.endtime →
      r.starttime ≤ ratAdd t2 buffer →
      r ∈ rows.filter (paddedWindowPass net sta loc chan t1 t2) := by
  constructor
  · unfold read_index
    rw [if_neg (by simp [validationFails, not_lt.mpr h])]
    show Except.ok _ = _
    rw [filter_index, maskSelect_map]
    unfold cacheGet
    rw [List.filter_filter]
    congr 1
    apply List.filter_congr
    intro r _
    simp only [paddedWindowPass, timePass, Bool.and_true, Bool.and_assoc]
    conv_rhs => rw [Bool.and_comm, Bool.and_assoc]
    rw [Bool.and_comm (!decide (ratAdd t2 buffer < r.starttime))]
    simp [Bool.and_assoc, gt_iff_lt]
  · intro r hr h1 h2 h3 h4 _h5 h6 h7
    rw [List.mem_filter]
    refine ⟨hr, ?_⟩
    simp [paddedWindowPass, h1, h2, h3, h4, not_lt.mpr h6, not_lt.mpr h7]

/-- Index rows for the C8 witness: one row covering [50, 95] (outside the
requested [100, 200] but inside its left padding) and one covering [10, 50]
(outside even the padding). -/
def c8Rows : List IndexRow :=
  [⟨"N", "S", "", "C", 50, 95, "pad"⟩, ⟨"N", "S", "", "C", 10, 50, "out"⟩]

/-- Witness for C8: the query [100, 200] returns the padding-only row
[50, 95] and drops the [10, 50] row. -/
theorem C8_padded_window_witness :
    read_index (fun _ => []) 0 ⟨[], some ⟨c8Rows, 0⟩⟩ StrFilter.noFilter
      StrFilter.noFilter StrFilter.noFilter StrFilter.noFilter
      (some 100) (some 200) =
      Except.ok [⟨"N", "S", "", "C", 50, 95, "pad"⟩] :=
  ((C8_padded_window (fun _ => []) 0 [] c8Rows 0 StrFilter.noFilter
    StrFilter.noFilter StrFilter.noFilter StrFilter.noFilter 100 200
    (by decide)).1).trans (by decide)

/- ----------------------------------------------------------------
   Glob matcher lemmas
   ---------------------------------------------------------------- -/

theorem globMatchAux_congr (n : Nat) :
    ∀ (toks : List GlobTok) (s : List Char) (f1 f2 : Nat),
      toks.length + s.length < n → toks.length + s.length < f1 →
      toks.length + s.length < f2 →
      globMatchAux f1 toks s = globMatchAux f2 toks s := by
  induction n with
  | zero => intro toks s f1 f2 h1 _ _; omega
  | succ n ih =>
    intro toks s f1 f2 hn h1 h2
    cases f1 with
    | zero => omega
    | succ f1 =>
      cases f2 with
      | zero => omega
      | succ f2 =>
        cases toks with
        | nil => cases s <;> rfl
        | cons t ps =>
          cases t with
          | star =>
            cases s with
            | nil =>
              simp only [List.length_cons, List.length_nil] at hn h1 h2
              simp only [globMatchAux]
              rw [ih ps [] f1 f2 (by simp; omega) (by simp; omega)
                (by simp; omega)]
            | cons c cs =>
              simp only [List.length_cons] at hn h1 h2
              simp only [globMatchAux]
              rw [ih ps (c :: cs) f1 f2
                  (by simp only [List.length_cons]; omega)
                  (by simp only [List.length_cons]; omega)
                  (by simp only [List.length_cons]; omega),
                ih (GlobTok.star :: ps) cs f1 f2
                  (by simp only [List.length_cons]; omega)
                  (by simp only [List.length_cons]; omega)
                  (by simp only [List.length_cons]; omega)]
          | anyChar =>
            cases s with
            | nil => rfl
            | cons c cs =>
              simp only [List.length_cons] at hn h1 h2
              simp only [globMatchAux]
              exact ih ps cs f1 f2 (by omega) (by omega) (by omega)
          | lit c0 =>
            cases s with
            | nil => rfl
            | cons c cs =>
              simp only [List.length_cons] at hn h1 h2
              simp only [globMatchAux]
              rw [ih ps cs f1 f2 (by omega) (by omega) (by omega)]
          | cls neg content =>
            cases s with
            | nil => rfl
            | cons c cs =>
              simp only [List.length_cons] at hn h1 h2
              simp only [globMatchAux]
              rw [ih ps cs f1 f2 (by omega) (by omega) (by omega)]

theorem globMatch_fuel (toks : List GlobTok) (s : List Char) (fuel : Nat)
    (h : toks.length + s.length < fuel) :
    globMatchAux fuel toks s = globMatch toks s :=
  globMatchAux_congr (toks.length + s.length + 1) toks s fuel
    (toks.length + s.length + 1) (by omega) h (by omega)

theorem globMatch_star_nil (ps : List GlobTok) :
    globMatch (GlobTok.star :: ps) [] = globMatch ps [] := by
  show (globMatchAux ((GlobTok.star :: ps).length + List.length ([] : List Char))
      ps [] || false) = _
  rw [globMatch_fuel ps [] _
    (by simp only [List.length_cons, List.length_nil]; omega)]
  simp

theorem globMatch_star_cons (ps : List GlobTok) (c : Char) (cs : List Char) :
    globMatch (GlobTok.star :: ps) (c :: cs) =
      (globMatch ps (c :: cs) || globMatch (GlobTok.star :: ps) cs) := by
  show (globMatchAux ((GlobTok.star :: ps).length + (c :: cs).length) ps (c :: cs)
      || globMatchAux ((GlobTok.star :: ps).length + (c :: cs).length)
        (GlobTok.star :: ps) cs) = _
  rw [globMatch_fuel ps (c :: cs) _
      (by simp only [List.length_cons]; omega),
    globMatch_fuel (GlobTok.star :: ps) cs _
      (by simp only [List.length_cons]; omega)]

theorem globMatch_lit_nil (c : Char) (ps : List GlobTok) :
    globMatch (GlobTok.lit c :: ps) [] = false := rfl

theorem globMatch_lit_cons (c : Char) (ps : List GlobTok) (c2 : Char)
    (cs : List Char) :
    globMatch (GlobTok.lit c :: ps) (c2 :: cs) =
      (decide (c = c2) && globMatch ps cs) := by
  show (decide (c = c2) &&
      globMatchAux ((GlobTok.lit c :: ps).length + (c2 :: cs).length) ps cs) = _
  rw [globMatch_fuel ps cs _ (by simp only [List.length_cons]; omega)]

theorem globMatch_anyChar_nil (ps : List GlobTok) :
    globMatch (GlobTok.anyChar :: ps) [] = false := rfl

theorem globMatch_anyChar_cons (ps : List GlobTok) (c : Char) (cs : List Char) :
    globMatch (GlobTok.anyChar :: ps) (c :: cs) = globMatch ps cs := by
  show globMatchAux ((GlobTok.anyChar :: ps).length + (c :: cs).length) ps cs = _
  rw [globMatch_fuel ps cs _ (by simp only [List.length_cons]; omega)]

theorem globMatch_nil_nil : globMatch [] [] = true := rfl

theorem globMatch_nil_cons (c : Char) (cs : List Char) :
    globMatch [] (c :: cs) = false := rfl

theorem globMatch_star_all (s : List Char) :
    globMatch [GlobTok.star] s = true := by
  induction s with
  | nil => rfl
  | cons c cs ih => rw [globMatch_star_cons, ih]; simp

theorem globMatch_all_lit (p l : List Char) :
    globMatch (p.map GlobTok.lit) l = decide (p = l) := by
  induction p generalizing l with
  | nil => cases l <;> simp [globMatch_nil_nil, globMatch_nil_cons]
  | cons c ps ih =>
    cases l with
    | nil => simp [globMatch_lit_nil]
    | cons c2 cs =>
      rw [List.map_cons, globMatch_lit_cons, ih]
      by_cases h : c = c2 <;> by_cases h2 : ps = cs <;> simp [h, h2]

theorem compileGlobAux_all_lit (p : List Char) :
    ∀ (fuel : Nat), p.all (fun c => !isMatchChar c) = true → p.length ≤ fuel →
      compileGlobAux fuel p = p.map GlobTok.lit := by
  induction p with
  | nil => intro fuel _ _; cases fuel <;> rfl
  | cons c ps ih =>
    intro fuel hw hf
    cases fuel with
    | zero => simp at hf
    | succ f =>
      simp only [List.all_cons, Bool.and_eq_true] at hw
      have hc : ¬ (c = '*') ∧ ¬ (c = '?') ∧ ¬ (c = '[') := by
        have := hw.1
        simp only [isMatchChar, Bool.not_eq_eq_eq_not, Bool.not_true,
          Bool.or_eq_false_iff, decide_eq_false_iff_not] at this
        exact ⟨this.1.1.1, this.1.1.2, this.1.2⟩
      rw [compileGlobAux, if_neg hc.1, if_neg hc.2.1, if_neg hc.2.2,
        List.map_cons, ih f hw.2 (by simp only [List.length_cons] at hf; omega)]

theorem fnmatch_literal (pat v : String) (h : hasWildcard pat = false) :
    fnmatch pat v = decide (pat = v) := by
  unfold fnmatch compileGlob
  have hall : pat.data.all (fun c => !isMatchChar c) = true := by
    rw [List.all_eq_true]
    intro c hc
    rw [hasWildcard, List.any_eq_false] at h
    simp [h c hc]
  rw [compileGlobAux_all_lit pat.data _ hall (by omega), globMatch_all_lit]
  simp only [decide_eq_decide]
  exact (String.ext_iff).symm

/- ----------------------------------------------------------------
   Claim C3
   ---------------------------------------------------------------- -/

/-- Index rows used by the C3 examples: stations "ABC", "A1" and "BXY". -/
def c3Index : List IndexRow :=
  [⟨"N", "ABC", "", "C", 0, 1, "p1"⟩, ⟨"N", "A1", "", "C", 0, 1, "p2"⟩,
    ⟨"N", "BXY", "", "C", 0, 1, "p3"⟩]

/-- C3: a string filter is a POSIX shell-style wildcard matched against the
whole field value: "A*" matches exactly the strings beginning with the
character A (any tail), "A?" matches exactly the two-character strings
beginning with A (so neither pattern does substring matching), and on the
example index the station filter "A*" passes "ABC" and "A1" but not "BXY"
while "A?" passes only "A1". -/
theorem C3_wildcard_matching :
    (∀ v : String, fnmatch "A*" v = true ↔ ∃ t, v.data = 'A' :: t) ∧
    (∀ v : String, fnmatch "A?" v = true ↔ ∃ ch, v.data = ['A', ch]) ∧
    filter_index c3Index StrFilter.noFilter (StrFilter.pat "A*")
      StrFilter.noFilter StrFilter.noFilter Option.none Option.none =
      [true, true, false] ∧
    filter_index c3Index StrFilter.noFilter (StrFilter.pat "A?")
      StrFilter.noFilter StrFilter.noFilter Option.none Option.none =
      [false, true, false] := by
  refine ⟨?_, ?_, by decide, by decide⟩
  · intro v
    have hc : compileGlob "A*".data = [GlobTok.lit 'A', GlobTok.star] := by
      decide
    unfold fnmatch
    rw [hc]
    cases hv : v.data with
    | nil => simp [globMatch_lit_nil]
    | cons c cs =>
      rw [globMatch_lit_cons, globMatch_star_all]
      simp [eq_comm]
  · intro v
    have hc : compileGlob "A?".data = [GlobTok.lit 'A', GlobTok.anyChar] := by
      decide
    unfold fnmatch
    rw [hc]
    cases hv : v.data with
    | nil => simp [globMatch_lit_nil]
    | cons c cs =>
      rw [globMatch_lit_cons]
      cases cs with
      | nil => simp [globMatch_anyChar_nil]
      | cons c2 cs2 =>
        rw [globMatch_anyChar_cons]
        cases cs2 with
        | nil => simp [globMatch_nil_nil, eq_comm]
        | cons c3 cs3 => simp [globMatch_nil_cons]

/- ----------------------------------------------------------------
   Write-path lemmas (claim C6)
   ---------------------------------------------------------------- -/

/-- The destination paths of a group list. -/
def groupKeys (g : List (String × List Trace)) : List String :=
  g.map Prod.fst

theorem fsGet_fsSet_same (fs : List (String × List Trace)) (p : String)
    (ts : List Trace) : fsGet (fsSet fs p ts) p = some ts := by
  induction fs with
  | nil => simp [fsSet, fsGet]
  | cons e rest ih =>
    by_cases h : e.1 = p
    · simp [fsSet, fsGet, h]
    · simpa [fsSet, fsGet, h] using ih

theorem fsGet_fsSet_ne (fs : List (String × List Trace)) (p q : String)
    (ts : List Trace) (h : q ≠ p) : fsGet (fsSet fs q ts) p = fsGet fs p := by
  induction fs with
  | nil => simp [fsSet, fsGet, h]
  | cons e rest ih =>
    by_cases he : e.1 = q
    · simp only [fsSet, he, if_pos rfl]
      simp [fsGet, he, h]
    · simp only [fsSet, if_neg he]
      by_cases hp : e.1 = p <;> simp [fsGet, hp, ih]

theorem fsGet_addToGroup (q : String) (tr : Trace)
    (acc : List (String × List Trace)) (p : String) :
    fsGet (addToGroup q tr acc) p =
      if q = p then some ((fsGet acc p).getD [] ++ [tr]) else fsGet acc p := by
  induction acc with
  | nil =>
    by_cases h : q = p <;> simp [addToGroup, fsGet, h]
  | cons e rest ih =>
    by_cases he : e.1 = q
    · rw [show (e : String × List Trace) = (e.1, e.2) from rfl, addToGroup]
      simp only [if_pos he]
      by_cases hp : q = p
      · simp [fsGet, he, hp]
      · have : ¬ (e.1 = p) := by rw [he]; exact hp
        simp [fsGet, this, hp]
    · rw [show (e : String × List Trace) = (e.1, e.2) from rfl, addToGroup]
      simp only [if_neg he]
      by_cases hp : e.1 = p
      · have : ¬ (q = p) := by rw [← hp]; exact fun hq => he hq.symm
        simp [fsGet, hp, this]
      · simp [fsGet, hp, ih]

theorem groupKeys_addToGroup (q : String) (tr : Trace)
    (acc : List (String × List Trace)) :
    groupKeys (addToGroup q tr acc) =
      if (groupKeys acc).contains q then groupKeys acc
      else groupKeys acc ++ [q] := by
  induction acc with
  | nil => simp [addToGroup, groupKeys]
  | cons e rest ih =>
    rw [show (e : String × List Trace) = (e.1, e.2) from rfl, addToGroup]
    by_cases he : e.1 = q
    · simp [groupKeys, he, List.contains_cons]
    · have : ¬ (q == e.1) = true := by
        simp only [beq_iff_eq]; exact fun h => he h.symm
      simp only [if_neg he, groupKeys, List.map_cons, List.contains_cons, this,
        Bool.false_or]
      rw [show (groupKeys rest).contains q =
          List.contains (List.map Prod.fst rest) q from rfl] at ih
      by_cases hc : List.contains (List.map Prod.fst rest) q = true
      · simp only [hc, if_pos rfl]
        rw [show List.map Prod.fst (addToGroup q tr rest) =
          groupKeys (addToGroup q tr rest) from rfl, ih, if_pos hc]
        simp [groupKeys]
      · simp only [Bool.not_eq_true] at hc
        simp only [hc, Bool.false_eq_true, if_false]
        rw [show List.map Prod.fst (addToGroup q tr rest) =
          groupKeys (addToGroup q tr rest) from rfl, ih, hc]
        simp [groupKeys]

theorem groupKeys_nodup_fold (pathOf : Trace → String) :
    ∀ (stream : List Trace) (acc : List (String × List Trace)),
      (groupKeys acc).Nodup →
      (groupKeys (stream.foldl
        (fun a tr => addToGroup (pathOf tr) tr a) acc)).Nodup := by
  intro stream
  induction stream with
  | nil => intro acc h; exact h
  | cons tr rest ih =>
    intro acc h
    apply ih
    rw [groupKeys_addToGroup]
    by_cases hc : (groupKeys acc).contains (pathOf tr) = true
    · rw [if_pos hc]; exact h
    · have hmem : pathOf tr ∉ groupKeys acc := by simpa using hc
      rw [if_neg hc]
      simp [List.nodup_append, h, hmem]

theorem fsGet_groupfold (pathOf : Trace → String) (p : String) :
    ∀ (stream : List Trace) (acc : List (String × List Trace)),
      fsGet (stream.foldl (fun a tr => addToGroup (pathOf tr) tr a) acc) p =
        if fsGet acc p = Option.none ∧
            stream.filter (fun tr => decide (pathOf tr = p)) = []
        then Option.none
        else some ((fsGet acc p).getD [] ++
          stream.filter (fun tr => decide (pathOf tr = p))) := by
  intro stream
  induction stream with
  | nil =>
    intro acc
    cases h : fsGet acc p <;> simp [h]
  | cons tr rest ih =>
    intro acc
    show fsGet (rest.foldl _ (addToGroup (pathOf tr) tr acc)) p = _
    rw [ih (addToGroup (pathOf tr) tr acc), fsGet_addToGroup]
    by_cases hp : pathOf tr = p
    · cases h : fsGet acc p <;>
        simp [h, hp, List.filter_cons]
    · cases h : fsGet acc p <;>
        simp [h, hp, List.filter_cons]

theorem fsGet_groupByPath (pathOf : Trace → String) (stream : List Trace)
    (p : String)
    (h : stream.filter (fun tr => decide (pathOf tr = p)) ≠ []) :
    fsGet (groupByPath pathOf stream) p =
      some (stream.filter (fun tr => decide (pathOf tr = p))) := by
  unfold groupByPath
  rw [fsGet_groupfold]
  simp [fsGet, h]

theorem groupByPath_keys_nodup (pathOf : Trace → String) (stream : List Trace) :
    (groupKeys (groupByPath pathOf stream)).Nodup :=
  groupKeys_nodup_fold pathOf stream [] (by simp [groupKeys])

theorem fsGet_some_mem (gs : List (String × List Trace)) (p : String)
    (l : List Trace) (h : fsGet gs p = some l) : (p, l) ∈ gs := by
  induction gs with
  | nil => simp [fsGet] at h
  | cons e rest ih =>
    by_cases he : e.1 = p
    · rw [show (e : String × List Trace) = (e.1, e.2) from rfl] at h ⊢
      rw [fsGet, if_pos he] at h
      cases h
      rw [he]
      exact List.mem_cons_self _ _
    · rw [show (e : String × List Trace) = (e.1, e.2) from rfl] at h
      rw [fsGet, if_neg he] at h
      exact List.mem_cons_of_mem _ (ih h)

theorem putfold_preserve (mergeFn : List Trace → List Trace)
    (gs : List (String × List Trace)) :
    ∀ (cur : List (String × List Trace)) (p : String), p ∉ groupKeys gs →
      fsGet (gs.foldl (fun acc pg =>
        fsSet acc pg.1 (mergeFn (match fsGet acc pg.1 with
          | some existing => pg.2 ++ existing
          | Option.none => pg.2))) cur) p = fsGet cur p := by
  induction gs with
  | nil => intro cur p _; rfl
  | cons e rest ih =>
    intro cur p h
    simp only [groupKeys, List.map_cons, List.mem_cons, not_or] at h
    rw [List.foldl_cons, ih _ p (by simpa [groupKeys] using h.2),
      fsGet_fsSet_ne _ _ _ _ (fun hh => h.1 hh.symm)]

theorem putfold_mem (mergeFn : List Trace → List Trace)
    (gs : List (String × List Trace)) :
    ∀ (cur : List (String × List Trace)) (p : String) (trs old : List Trace),
      (groupKeys gs).Nodup → (p, trs) ∈ gs → fsGet cur p = some old →
      fsGet (gs.foldl (fun acc pg =>
        fsSet acc pg.1 (mergeFn (match fsGet acc pg.1 with
          | some existing => pg.2 ++ existing
          | Option.none => pg.2))) cur) p = some (mergeFn (trs ++ old)) := by
  induction gs with
  | nil => intro cur p trs old _ hmem _; simp at hmem
  | cons e rest ih =>
    intro cur p trs old hnodup hmem hold
    have hnodup2 : (e.1 :: groupKeys rest).Nodup := by
      simpa only [groupKeys, List.map_cons] using hnodup
    have hnd := List.nodup_cons.mp hnodup2
    rcases List.mem_cons.mp hmem with heq | htail
    · have he1 : e.1 = p := by rw [← heq]
      have he2 : e.2 = trs := by rw [← heq]
      rw [List.foldl_cons]
      rw [putfold_preserve mergeFn rest _ p (by rw [← he1]; exact hnd.1)]
      rw [he1, hold, he2]
      exact fsGet_fsSet_same _ _ _
    · have hp_rest : p ∈ groupKeys rest := by
        simp only [groupKeys, List.mem_map]
        exact ⟨(p, trs), htail, rfl⟩
      have hne : e.1 ≠ p := fun hh => hnd.1 (by rw [hh]; exact hp_rest)
      rw [List.foldl_cons]
      exact ih _ p trs old hnd.2 htail
        (by rw [fsGet_fsSet_ne _ _ _ _ hne]; exact hold)

/- ----------------------------------------------------------------
   Claim C6
   ---------------------------------------------------------------- -/

/-- C6: when `put_waveforms` routes some input traces to a destination path
that already holds content, the value written at that path is the merge of
the newly routed traces together with the complete existing content — the
old content enters the merge, it is never discarded. -/
theorem C6_merge_on_write (pathOf : Trace → String)
    (mergeFn : List Trace → List Trace) (fs : List (String × List Trace))
    (stream : List Trace) (p : String) (old : List Trace)
    (hold : fsGet fs p = some old)
    (hroute : ∃ tr ∈ stream, pathOf tr = p) :
    fsGet (put_waveforms pathOf mergeFn fs stream) p =
      some (mergeFn
        (stream.filter (fun tr => decide (pathOf tr = p)) ++ old)) := by
  obtain ⟨tr, htr, hptr⟩ := hroute
  have hne : stream.filter (fun tr => decide (pathOf tr = p)) ≠ [] := by
    have : tr ∈ stream.filter (fun tr => decide (pathOf tr = p)) :=
      List.mem_filter.mpr ⟨htr, by simp [hptr]⟩
    exact fun hnil => by simp [hnil] at this
  have hget := fsGet_groupByPath pathOf stream p hne
  exact putfold_mem mergeFn (groupByPath pathOf stream) fs p _ old
    (groupByPath_keys_nodup pathOf stream) (fsGet_some_mem _ _ _ hget) hold

/-- Witness for C6: one existing trace at path "f" and one new trace routed
there; the written content is the merge input containing both. -/
theorem C6_merge_on_write_witness :
    fsGet (put_waveforms (fun _ => "f") (fun l => l)
      [("f", [⟨"N", "S", "", "C", 0, 10⟩])] [⟨"N", "S", "", "C", 10, 20⟩]) "f"
      = some [⟨"N", "S", "", "C", 10, 20⟩, ⟨"N", "S", "", "C", 0, 10⟩] :=
  (C6_merge_on_write (fun _ => "f") (fun l => l)
    [("f", [⟨"N", "S", "", "C", 0, 10⟩])] [⟨"N", "S", "", "C", 10, 20⟩] "f"
    [⟨"N", "S", "", "C", 0, 10⟩] rfl
    ⟨⟨"N", "S", "", "C", 10, 20⟩, by simp, rfl⟩).trans (by decide)

/- ----------------------------------------------------------------
   Seed-identifier lemmas (claims C1 and C9)
   ---------------------------------------------------------------- -/

/-- Whether a code contains no dot (dots are the seed-id separators, so
dotted concatenation is injective on dot-free codes). -/
def noDot (s : String) : Bool := s.data.all (fun ch => !decide (ch = '.'))

theorem append_dot_inj (xs : List Char) :
    ∀ (ys a b : List Char),
      xs.all (fun ch => !decide (ch = '.')) = true →
      ys.all (fun ch => !decide (ch = '.')) = true →
      xs ++ '.' :: a = ys ++ '.' :: b → xs = ys ∧ a = b := by
  induction xs with
  | nil =>
    intro ys a b _ hy h
    cases ys with
    | nil => simpa using h
    | cons y ys2 =>
      simp only [List.nil_append, List.cons_append, List.cons.injEq] at h
      simp only [List.all_cons, Bool.and_eq_true, Bool.not_eq_eq_eq_not,
        Bool.not_true, decide_eq_false_iff_not] at hy
      exact absurd h.1.symm hy.1
  | cons x xs2 ih =>
    intro ys a b hx hy h
    cases ys with
    | nil =>
      simp only [List.cons_append, List.nil_append, List.cons.injEq] at h
      simp only [List.all_cons, Bool.and_eq_true, Bool.not_eq_eq_eq_not,
        Bool.not_true, decide_eq_false_iff_not] at hx
      exact absurd h.1 hx.1
    | cons y ys2 =>
      simp only [List.cons_append, List.cons.injEq] at h
      simp only [List.all_cons, Bool.and_eq_true] at hx hy
      obtain ⟨hxy, hrest⟩ := h
      obtain ⟨hxs, hab⟩ := ih ys2 a b hx.2 hy.2 hrest
      exact ⟨by rw [hxy, hxs], hab⟩

theorem seed_eq_iff (a b c d a2 b2 c2 d2 : String)
    (ha : noDot a = true) (hb : noDot b = true) (hc : noDot c = true)
    (ha2 : noDot a2 = true) (hb2 : noDot b2 = true) (hc2 : noDot c2 = true) :
    (a ++ "." ++ b ++ "." ++ c ++ "." ++ d =
      a2 ++ "." ++ b2 ++ "." ++ c2 ++ "." ++ d2) ↔
      (a = a2 ∧ b = b2 ∧ c = c2 ∧ d = d2) := by
  constructor
  · intro h
    have hdot : (("." : String)).data = ['.'] := rfl
    rw [String.ext_iff] at h
    simp only [String.data_append, hdot, List.append_assoc,
      List.singleton_append] at h
    obtain ⟨h1, h2⟩ := append_dot_inj a.data _ _ _ ha ha2 h
    obtain ⟨h3, h4⟩ := append_dot_inj b.data _ _ _ hb hb2 h2
    obtain ⟨h5, h6⟩ := append_dot_inj c.data _ _ _ hc hc2 h4
    exact ⟨String.ext h1, String.ext h3, String.ext h5, String.ext h6⟩
  · rintro ⟨rfl, rfl, rfl, rfl⟩
    rfl

theorem normalizeCode_eq_self (s : String) (h : ¬ (s = "--")) :
    normalizeCode s = s := by
  simp [normalizeCode, h]

theorem filter_index_noFilter (idx : List IndexRow) :
    filter_index idx StrFilter.noFilter StrFilter.noFilter StrFilter.noFilter
      StrFilter.noFilter Option.none Option.none = idx.map (fun _ => true) := by
  simp [filter_index, rowPasses, timePass]

theorem read_index_store_eval (summarize : String → List IndexRow) (now : Rat)
    (files : List WaveFile) (rows : List IndexRow) (lu : Rat)
    (net sta loc chan : StrFilter) (t1 t2 : Rat) (h : t1 ≤ t2) :
    read_index summarize now ⟨files, some ⟨rows, lu⟩⟩ net sta loc chan
      (some t1) (some t2) =
      Except.ok ((cacheGet rows (some t1) (some t2)).filter (fun r =>
        rowPasses net r.network && rowPasses sta r.station &&
        rowPasses loc r.location && rowPasses chan r.channel &&
        timePass Option.none Option.none r)) := by
  unfold read_index
  rw [if_neg (by simp [validationFails, not_lt.mpr h])]
  show Except.ok _ = _
  rw [filter_index, maskSelect_map]

theorem read_index_store_noFilter (summarize : String → List IndexRow)
    (now : Rat) (files : List WaveFile) (rows : List IndexRow) (lu : Rat)
    (t1 t2 : Rat) (h : t1 ≤ t2) :
    read_index summarize now ⟨files, some ⟨rows, lu⟩⟩ StrFilter.noFilter
      StrFilter.noFilter StrFilter.noFilter StrFilter.noFilter
      (some t1) (some t2) =
      Except.ok (cacheGet rows (some t1) (some t2)) := by
  rw [read_index_store_eval summarize now files rows lu _ _ _ _ t1 t2 h]
  congr 1
  conv_rhs => rw [← List.filter_true (cacheGet rows (some t1) (some t2))]
  apply List.filter_congr
  intro r _
  simp [rowPasses, timePass]

/- ----------------------------------------------------------------
   Claim C1
   ---------------------------------------------------------------- -/

/-- A code free of the `_get_nslc` "--" aliasing and of the seed-id
separator dot. -/
def cleanCode (s : String) : Bool := !decide (s = "--") && noDot s

/-- All four codes of an index row clean. -/
def cleanRow (r : IndexRow) : Bool :=
  cleanCode r.network && cleanCode r.station &&
  cleanCode r.location && cleanCode r.channel

/-- C1 counterexample: with one stored row whose location is the empty
string, a one-element bulk request with location "--" selects the row
(the exact branch replaces "--" by "" on both sides before the
seed-identifier membership test), while the equivalent single request
through `read_index`/`filter_index` selects nothing (the pattern "--" does
not match the field value "").  The two paths therefore do not select the
same rows for every request. -/
theorem C1_counterexample :
    bulk_select_single (fun _ => []) 0
      ⟨[], some ⟨[⟨"N", "S", "", "C", 0, 50, "p"⟩], 0⟩⟩
      ⟨some "N", some "S", some "--", some "C", 0, 100⟩ =
      Except.ok [⟨"N", "S", "", "C", 0, 50, "p"⟩] ∧
    read_index (fun _ => []) 0
      ⟨[], some ⟨[⟨"N", "S", "", "C", 0, 50, "p"⟩], 0⟩⟩ (StrFilter.pat "N")
      (StrFilter.pat "S") (StrFilter.pat "--") (StrFilter.pat "C")
      (some 0) (some 100) = Except.ok [] := by decide

/-- C1 (amended): for a request with start ≤ end whose four codes are
strings that are neither "--" nor contain a dot, over an index whose row
codes are likewise clean, the one-element bulk path selects exactly the
same rows as the equivalent single request through
`read_index`/`filter_index`. -/
theorem C1_bulk_single_agree (summarize : String → List IndexRow) (now : Rat)
    (files : List WaveFile) (rows : List IndexRow) (lu : Rat)
    (n s l c : String) (t1 t2 : Rat) (ht : t1 ≤ t2)
    (hn : cleanCode n = true) (hs : cleanCode s = true)
    (hl : cleanCode l = true) (hc : cleanCode c = true)
    (hrows : ∀ r ∈ rows, cleanRow r = true) :
    bulk_select_single summarize now ⟨files, some ⟨rows, lu⟩⟩
      ⟨some n, some s, some l, some c, t1, t2⟩ =
      read_index summarize now ⟨files, some ⟨rows, lu⟩⟩ (StrFilter.pat n)
        (StrFilter.pat s) (StrFilter.pat l) (StrFilter.pat c)
        (some t1) (some t2) := by
  rw [read_index_store_eval summarize now files rows lu (StrFilter.pat n)
    (StrFilter.pat s) (StrFilter.pat l) (StrFilter.pat c) t1 t2 ht]
  unfold bulk_select_single
  rw [read_index_store_noFilter summarize now files rows lu t1 t2 ht]
  simp only []
  by_cases hw : (fieldUsesMatch (some n) || fieldUsesMatch (some s) ||
      fieldUsesMatch (some l) || fieldUsesMatch (some c)) = true
  · rw [if_pos hw, filter_index, maskSelect_map]
    rfl
  · rw [if_neg hw]
    simp only [fieldUsesMatch, Bool.or_eq_true, not_or, Bool.not_eq_true] at hw
    obtain ⟨⟨⟨hwn, hws⟩, hwl⟩, hwc⟩ := hw
    congr 1
    apply List.filter_congr
    intro r hrI
    have hrrows : r ∈ rows := (List.mem_filter.mp hrI).1
    have hcl := hrows r hrrows
    simp only [cleanRow, cleanCode, Bool.and_eq_true, Bool.not_eq_true',
      decide_eq_false_iff_not] at hcl hn hs hl hc
    obtain ⟨⟨⟨⟨hne1, hnd1⟩, ⟨hne2, hnd2⟩⟩, ⟨hne3, hnd3⟩⟩, ⟨hne4, hnd4⟩⟩ := hcl
    have hseedrow : seedOfRow r =
        r.network ++ "." ++ r.station ++ "." ++ r.location ++ "." ++
          r.channel := by
      unfold seedOfRow
      rw [normalizeCode_eq_self _ hne1, normalizeCode_eq_self _ hne2,
        normalizeCode_eq_self _ hne3, normalizeCode_eq_self _ hne4]
    have hseedreq : seedOfRequest
        ⟨some n, some s, some l, some c, t1, t2⟩ =
        n ++ "." ++ s ++ "." ++ l ++ "." ++ c := by
      show normalizeCode n ++ "." ++ normalizeCode s ++ "." ++
        normalizeCode l ++ "." ++ normalizeCode c = _
      rw [normalizeCode_eq_self _ hn.1, normalizeCode_eq_self _ hs.1,
        normalizeCode_eq_self _ hl.1, normalizeCode_eq_self _ hc.1]
    rw [hseedrow, hseedreq]
    have hiff : (r.network ++ "." ++ r.station ++ "." ++ r.location ++ "." ++
        r.channel = n ++ "." ++ s ++ "." ++ l ++ "." ++ c) ↔
        (r.network = n ∧ r.station = s ∧ r.location = l ∧ r.channel = c) :=
      seed_eq_iff r.network r.station r.location r.channel n s l c
        hnd1 hnd2 hnd3 hn.2 hs.2 hl.2
    rw [(decide_eq_decide).mpr hiff]
    simp only [rowPasses, fnmatch_literal n _ hwn, fnmatch_literal s _ hws,
      fnmatch_literal l _ hwl, fnmatch_literal c _ hwc, timePass,
      Bool.and_true, Bool.decide_and]
    simp [Bool.and_assoc, eq_comm]
    exact inferInstance

/-- Witness for C1 (amended) at a concrete clean request and index. -/
theorem C1_bulk_single_agree_witness :
    bulk_select_single (fun _ => []) 0
      ⟨[], some ⟨[⟨"N", "S", "L", "C", 0, 50, "p"⟩], 0⟩⟩
      ⟨some "N", some "S", some "L", some "C", 0, 100⟩ =
      read_index (fun _ => []) 0
        ⟨[], some ⟨[⟨"N", "S", "L", "C", 0, 50, "p"⟩], 0⟩⟩
        (StrFilter.pat "N") (StrFilter.pat "S") (StrFilter.pat "L")
        (StrFilter.pat "C") (some 0) (some 100) :=
  C1_bulk_single_agree (fun _ => []) 0 [] [⟨"N", "S", "L", "C", 0, 50, "p"⟩]
    0 "N" "S" "L" "C" 0 100 (by decide) (by decide) (by decide) (by decide)
    (by decide) (by decide)

/- ----------------------------------------------------------------
   Claim C9
   ---------------------------------------------------------------- -/

/-- C9 counterexample: the bulk request (None, "S", "", "C") has no wildcard
special character in any code field, yet the resolver does not apply the
normalized seed-identifier membership test to it: `_column_contains` yields
a missing value on the None field, numpy's `any` treats it as true, and the
request is routed to the wildcard branch where None imposes no constraint.
The code therefore selects the row with network "AB", while the claimed
membership test on normalized seeds (request seed ".S..C") selects
nothing. -/
theorem C9_counterexample :
    bulk_select_single (fun _ => []) 0
      ⟨[], some ⟨[⟨"AB", "S", "", "C", 0, 50, "p"⟩], 0⟩⟩
      ⟨Option.none, some "S", some "", some "C", 0, 100⟩ =
      Except.ok [⟨"AB", "S", "", "C", 0, 50, "p"⟩] ∧
    (cacheGet [⟨"AB", "S", "", "C", 0, 50, "p"⟩] (some 0) (some 100)).filter
      (fun r => decide (seedOfRow r =
        seedOfRequest ⟨Option.none, some "S", some "", some "C", 0, 100⟩)) =
      [] := by decide

/-- C9 (amended): for bulk requests whose four code fields are strings with
no wildcard special character, "--" (in the request or in the index rows) is
replaced by the empty string before the exact seed-identifier membership
test: an exact request with location "--" selects a row with location ""
and conversely.  The single-request path performs no such replacement (the
same query through `read_index` selects nothing), and neither does the
wildcard branch (the same request with a wildcard channel selects
nothing).  A None request field routes the request to the wildcard branch
instead (see the counterexample). -/
theorem C9_exact_branch_normalization (summarize : String → List IndexRow)
    (now : Rat) (files : List WaveFile) (lu : Rat) (t1 t2 st en : Rat)
    (ht : t1 ≤ t2) (h1 : ¬ (en < ratSub t1 buffer))
    (h2 : ¬ (st > ratAdd t2 buffer)) :
    bulk_select_single summarize now
      ⟨files, some ⟨[⟨"N", "S", "", "C", st, en, "p"⟩], lu⟩⟩
      ⟨some "N", some "S", some "--", some "C", t1, t2⟩ =
      Except.ok [⟨"N", "S", "", "C", st, en, "p"⟩] ∧
    bulk_select_single summarize now
      ⟨files, some ⟨[⟨"N", "S", "--", "C", st, en, "p"⟩], lu⟩⟩
      ⟨some "N", some "S", some "", some "C", t1, t2⟩ =
      Except.ok [⟨"N", "S", "--", "C", st, en, "p"⟩] ∧
    read_index summarize now
      ⟨files, some ⟨[⟨"N", "S", "", "C", st, en, "p"⟩], lu⟩⟩
      (StrFilter.pat "N") (StrFilter.pat "S") (StrFilter.pat "--")
      (StrFilter.pat "C") (some t1) (some t2) = Except.ok [] ∧
    bulk_select_single summarize now
      ⟨files, some ⟨[⟨"N", "S", "", "C", st, en, "p"⟩], lu⟩⟩
      ⟨some "N", some "S", some "--", some "*", t1, t2⟩ = Except.ok [] := by
  have hcache : ∀ (net sta loc chan pth : String),
      cacheGet [⟨net, sta, loc, chan, st, en, pth⟩] (some t1) (some t2) =
        [⟨net, sta, loc, chan, st, en, pth⟩] := by
    intro net sta loc chan pth
    simp [cacheGet, h1, h2]
  refine ⟨?_, ?_, ?_, ?_⟩
  · unfold bulk_select_single
    rw [read_index_store_noFilter summarize now files _ lu t1 t2 ht]
    simp only []
    rw [if_neg (by decide), hcache]
    rfl
  · unfold bulk_select_single
    rw [read_index_store_noFilter summarize now files _ lu t1 t2 ht]
    simp only []
    rw [if_neg (by decide), hcache]
    rfl
  · rw [read_index_store_eval summarize now files _ lu (StrFilter.pat "N")
      (StrFilter.pat "S") (StrFilter.pat "--") (StrFilter.pat "C") t1 t2 ht,
      hcache]
    rfl
  · unfold bulk_select_single
    rw [read_index_store_noFilter summarize now files _ lu t1 t2 ht]
    simp only []
    rw [if_pos (by decide), hcache]
    rfl

/-- Witness for C9 (amended) at concrete times. -/
theorem C9_exact_branch_normalization_witness :
    bulk_select_single (fun _ => []) 0
      ⟨[], some ⟨[⟨"N", "S", "", "C", 0, 50, "p"⟩], 0⟩⟩
      ⟨some "N", some "S", some "--", some "C", 0, 100⟩ =
      Except.ok [⟨"N", "S", "", "C", 0, 50, "p"⟩] :=
  (C9_exact_branch_normalization (fun _ => []) 0 [] 0 0 100 0 50 (by decide)
    (by decide) (by decide)).1
